import Mathlib

/-!
Verification of the Hydra execution engine (`pxr/imaging/hd/engine.cpp`).

Shallow embedding of `HdEngine`: the task-context blackboard
(`SetTaskContextData` / `GetTaskContextData` / `RemoveTaskContextData` /
`ClearTaskContextData`) and the two `Execute` entry points (the primary
phased one and the path-resolving convenience overload).

The blackboard `_taskContext` (`std::unordered_map<TfToken, VtValue>`) is
embedded as an association list with unique keys; values are an arbitrary
type `V` standing for `VtValue`.  External collaborators (the render index's
`SyncAll` and `GetTask`, a task's `Prepare` and `Execute`) are arbitrary
functions stored in structures, and the engine's observable behaviour is
captured as a trace of phase events.
-/

namespace HdModel

/-- Embeds `TfToken`: an interned identifier, as a string. -/
abbrev TfToken := String

/-- Embeds `SdfPath`: a scene path, as a string; `IsEmpty` is `= ""`. -/
abbrev SdfPath := String

/-- The key `HdTokens->drivers`, seeded on the blackboard at the start of `Execute`. -/
def driversToken : TfToken := "drivers"

/-- Embeds `HdTaskContext`: the blackboard, a key → value map modelled as an
association list (unique keys are an invariant, proved below). -/
abbrev HdTaskContext (V : Type) := List (TfToken × V)

/-- Embeds `HdEngine::SetTaskContextData`: `emplace` the pair, and when the key was
already present overwrite its value in place (upsert).  The same upsert
semantics embeds `_taskContext[key] = value` (`operator[]` + assignment),
used by the driver-seeding step of `Execute`. -/
def SetTaskContextData {V : Type} (ctx : HdTaskContext V) (id : TfToken)
    (data : V) : HdTaskContext V :=
  if ctx.any (fun p => p.1 == id) then
    ctx.map (fun p => if p.1 == id then (id, data) else p)
  else
    ctx ++ [(id, data)]

/-- Embeds `HdEngine::GetTaskContextData`: `find` the key; `some` value when
present, `none` ("returns false") when absent. -/
def GetTaskContextData {V : Type} (ctx : HdTaskContext V) (id : TfToken) :
    Option V :=
  (ctx.find? (fun p => p.1 == id)).map (·.2)

/-- Embeds `HdEngine::RemoveTaskContextData`: `erase` the key. -/
def RemoveTaskContextData {V : Type} (ctx : HdTaskContext V) (id : TfToken) :
    HdTaskContext V :=
  ctx.filter (fun p => p.1 != id)

/-- Embeds `HdEngine::ClearTaskContextData`: `clear`. -/
def ClearTaskContextData {V : Type} (_ctx : HdTaskContext V) :
    HdTaskContext V := ([] : HdTaskContext V)

/-- A key is present on the blackboard. -/
def HasKey {V : Type} (ctx : HdTaskContext V) (id : TfToken) : Prop :=
  ∃ p ∈ ctx, p.1 = id

instance {V : Type} (ctx : HdTaskContext V) (id : TfToken) :
    Decidable (HasKey ctx id) := by
  unfold HasKey; infer_instance

/-- The map invariant of `std::unordered_map`: no two entries share a key. -/
def KeysUnique {V : Type} (ctx : HdTaskContext V) : Prop :=
  (ctx.map Prod.fst).Nodup

instance {V : Type} (ctx : HdTaskContext V) : Decidable (KeysUnique ctx) := by
  unfold KeysUnique; infer_instance

/-- The entries of the blackboard stored under a given key, in order. -/
def keyEntries {V : Type} (ctx : HdTaskContext V) (id : TfToken) :
    HdTaskContext V :=
  ctx.filter (fun p => p.1 == id)

/-- Embeds `HdTask`, as the engine sees it: an identity (used only to observe call
order in traces) and the `Prepare` / `Execute` operations, each an opaque
transformation of the blackboard. -/
structure HdTask (V : Type) where
  tid : Nat
  prepare : HdTaskContext V → HdTaskContext V
  execute : HdTaskContext V → HdTaskContext V

/-- Embeds `HdRenderIndex`, as the engine consumes it: the current driver set
(`GetDrivers`), `SyncAll` (which receives the task list by pointer and the
blackboard by pointer, and may mutate both), and task lookup `GetTask`.
`GetRenderDelegate`/`CommitResources` touch neither the blackboard nor the
task list, so the commit phase is recorded purely as a trace event. -/
structure HdRenderIndex (V : Type) where
  drivers : V
  syncAll : List (HdTask V) → HdTaskContext V → List (HdTask V) × HdTaskContext V
  getTask : SdfPath → Option (HdTask V)

/-- Observable events of one engine call, in issue order. -/
inductive HdEvent where
  | codingError (msg : String)
  | seed
  | syncAll (taskIds : List Nat)
  | prepare (taskId : Nat)
  | commit
  | execTask (taskId : Nat)
deriving DecidableEq, Repr

/-- The Prepare phase: `for taskNum in [0, numTasks): tasks[taskNum]->Prepare(&ctx, index)`,
threading the blackboard and recording one event per task in list order. -/
def preparePhase {V : Type} : List (HdTask V) → HdTaskContext V →
    HdTaskContext V × List HdEvent
  | [], ctx => (ctx, [])
  | t :: ts, ctx =>
    let r := preparePhase ts (t.prepare ctx)
    (r.1, HdEvent.prepare t.tid :: r.2)

/-- The Execute phase: `for taskNum in [0, numTasks): tasks[taskNum]->Execute(&ctx)`,
threading the blackboard and recording one event per task in list order. -/
def executePhase {V : Type} : List (HdTask V) → HdTaskContext V →
    HdTaskContext V × List HdEvent
  | [], ctx => (ctx, [])
  | t :: ts, ctx =>
    let r := executePhase ts (t.execute ctx)
    (r.1, HdEvent.execTask t.tid :: r.2)

/-- Result of one primary `Execute` call: the blackboard afterwards, the
contents of the caller's task vector afterwards (`none` when a null task
pointer was passed, in which case it is untouched), and the event trace. -/
structure ExecResult (V : Type) where
  ctx : HdTaskContext V
  tasksOut : Option (List (HdTask V))
  trace : List HdEvent
deriving Inhabited

/-- Embeds `HdEngine::Execute(HdRenderIndex*, HdTaskSharedPtrVector*)`.
Null `index` or null `tasks` reports a coding error and returns with nothing
else done.  Otherwise: seed `_taskContext[drivers]` with `index->GetDrivers()`,
call `index->SyncAll(tasks, &_taskContext)` (which may rewrite the task list),
capture `numTasks = tasks->size()` once, run the Prepare loop, call
`CommitResources` once, run the Execute loop. -/
def Execute {V : Type} (index : Option (HdRenderIndex V))
    (tasks : Option (List (HdTask V))) (ctx : HdTaskContext V) : ExecResult V :=
  match index, tasks with
  | some idx, some ts =>
    let ctx0 := SetTaskContextData ctx driversToken idx.drivers
    let sync := idx.syncAll ts ctx0
    let prep := preparePhase sync.1 sync.2
    let exec := executePhase sync.1 prep.1
    { ctx := exec.1
      tasksOut := some sync.1
      trace := HdEvent.seed :: HdEvent.syncAll (ts.map (·.tid)) ::
        (prep.2 ++ HdEvent.commit :: exec.2) }
  | _, _ =>
    { ctx := ctx
      tasksOut := tasks
      trace := [HdEvent.codingError "Passed nullptr to HdEngine::Execute()"] }

/-- Path resolution loop of `HdEngine::Execute(HdRenderIndex*, SdfPathVector const&)`:
an empty path reports a coding error and is skipped; otherwise
`index->GetTask(path)` is called unconditionally — with a null index this
dereferences null (`none` result, a fault); a failed lookup reports a coding
error and is skipped; a resolved task is appended. -/
def resolveTasks {V : Type} (index : Option (HdRenderIndex V)) :
    List SdfPath → Option (List (HdTask V) × List HdEvent)
  | [] => some ([], [])
  | p :: ps =>
    if p = "" then
      (resolveTasks index ps).map (fun r =>
        (r.1, HdEvent.codingError "Empty task path given to HdEngine::Execute()" :: r.2))
    else
      match index with
      | none => none
      | some idx =>
        match idx.getTask p with
        | none =>
          (resolveTasks index ps).map (fun r =>
            (r.1, HdEvent.codingError
              ("No task at " ++ p ++ " in render index in HdEngine::Execute()") :: r.2))
        | some t =>
          (resolveTasks index ps).map (fun r => (t :: r.1, r.2))

/-- Embeds `HdEngine::Execute(HdRenderIndex* const, SdfPathVector const&)`: build a
fresh task list from the paths, then delegate to the primary `Execute`.
`none` models the null-dereference fault when a non-empty path is resolved
against a null index. -/
def ExecuteTaskPaths {V : Type} (index : Option (HdRenderIndex V))
    (taskPaths : List SdfPath) (ctx : HdTaskContext V) : Option (ExecResult V) :=
  (resolveTasks index taskPaths).map (fun r =>
    let res := Execute index (some r.1) ctx
    { res with trace := r.2 ++ res.trace })

/-- The task list the convenience overload builds, stated the way the spec
words it: each path in order, an empty path is skipped, an unresolvable path
is skipped, a resolved task is kept, relative order preserved. -/
def specBuiltTasks {V : Type} (idx : HdRenderIndex V) (paths : List SdfPath) :
    List (HdTask V) :=
  paths.filterMap (fun p => if p = "" then none else idx.getTask p)

/-- The usage errors the convenience overload reports, stated the way the
spec words it: one per empty path and one per unresolvable path, in order. -/
def specPathErrors {V : Type} (idx : HdRenderIndex V) (paths : List SdfPath) :
    List HdEvent :=
  paths.filterMap (fun p =>
    if p = "" then
      some (HdEvent.codingError "Empty task path given to HdEngine::Execute()")
    else
      match idx.getTask p with
      | none => some (HdEvent.codingError
          ("No task at " ++ p ++ " in render index in HdEngine::Execute()"))
      | some _ => none)

/-- Task ids of the Prepare-phase events of a trace, in order. -/
def prepareIds : List HdEvent → List Nat
  | [] => []
  | HdEvent.prepare n :: es => n :: prepareIds es
  | _ :: es => prepareIds es

/-- Task ids of the Execute-phase events of a trace, in order. -/
def execIds : List HdEvent → List Nat
  | [] => []
  | HdEvent.execTask n :: es => n :: execIds es
  | _ :: es => execIds es

/-- Number of `CommitResources` events in a trace. -/
def commitCount (tr : List HdEvent) : Nat :=
  tr.countP (fun e => match e with | HdEvent.commit => true | _ => false)

/-- Number of `SyncAll` events in a trace. -/
def syncCount (tr : List HdEvent) : Nat :=
  tr.countP (fun e => match e with | HdEvent.syncAll _ => true | _ => false)

/-- Number of seed (driver-overwrite) events in a trace. -/
def seedCount (tr : List HdEvent) : Nat :=
  tr.countP (fun e => match e with | HdEvent.seed => true | _ => false)

/-- The blackboard immediately after the Seed step of a valid `Execute` call
(line `_taskContext[HdTokens->drivers] = VtValue(index->GetDrivers())`). -/
def seededCtx {V : Type} (idx : HdRenderIndex V) (ctx : HdTaskContext V) :
    HdTaskContext V :=
  SetTaskContextData ctx driversToken idx.drivers

/-- The task list as `SyncAll` leaves it: the single point after which
`numTasks = tasks->size()` is captured. -/
def postSyncTasks {V : Type} (idx : HdRenderIndex V) (ts : List (HdTask V))
    (ctx : HdTaskContext V) : List (HdTask V) :=
  (idx.syncAll ts (seededCtx idx ctx)).1

/-- The blackboard as `SyncAll` leaves it. -/
def postSyncCtx {V : Type} (idx : HdRenderIndex V) (ts : List (HdTask V))
    (ctx : HdTaskContext V) : HdTaskContext V :=
  (idx.syncAll ts (seededCtx idx ctx)).2

/-- A sample task used to evaluate the model on concrete inputs. -/
def sampleTaskA : HdTask Nat :=
  { tid := 1, prepare := fun c => c, execute := fun c => c }

/-- A second sample task. -/
def sampleTaskB : HdTask Nat :=
  { tid := 2, prepare := fun c => c, execute := fun c => c }

/-- A sample render index: identity `SyncAll`, two resolvable task paths. -/
def sampleIndex : HdRenderIndex Nat :=
  { drivers := 7
    syncAll := fun l c => (l, c)
    getTask := fun p =>
      if p = "/A" then some sampleTaskA
      else if p = "/B" then some sampleTaskB
      else none }


end HdModel

namespace HdModel

theorem find?_eq_none_of_any_eq_false {V : Type} {ctx : HdTaskContext V} {k : TfToken}
    (h : ctx.any (fun p => p.1 == k) = false) :
    ctx.find? (fun p => p.1 == k) = none := by
  rw [List.find?_eq_none]
  intro p hp
  simp only [List.any_eq_false] at h
  exact h p hp

theorem get_set_self {V : Type} (ctx : HdTaskContext V) (k : TfToken) (v : V) :
    GetTaskContextData (SetTaskContextData ctx k v) k = some v := by
  unfold SetTaskContextData
  by_cases h : ctx.any (fun p => p.1 == k) = true
  · rw [if_pos h]
    induction ctx with
    | nil => simp at h
    | cons p rest ih =>
      by_cases hp : (p.1 == k) = true
      · rw [List.map_cons, if_pos hp]
        unfold GetTaskContextData
        rw [List.find?_cons_of_pos _ (by simp)]
        rfl
      · have hrest : rest.any (fun p => p.1 == k) = true := by
          simpa [List.any_cons, hp] using h
        rw [List.map_cons, if_neg hp]
        unfold GetTaskContextData
        rw [List.find?_cons_of_neg (p := fun q : TfToken × V => q.1 == k) _ hp]
        exact ih hrest
  · simp only [Bool.not_eq_true] at h
    rw [if_neg (by simp [h])]
    unfold GetTaskContextData
    rw [List.find?_append, find?_eq_none_of_any_eq_false h]
    simp [List.find?]

end HdModel

namespace HdModel

theorem get_of_not_hasKey {V : Type} {ctx : HdTaskContext V} {k : TfToken}
    (h : ¬ HasKey ctx k) : GetTaskContextData ctx k = none := by
  unfold GetTaskContextData
  rw [List.find?_eq_none.mpr]
  · rfl
  · intro p hp hpk
    exact h ⟨p, hp, by simpa using hpk⟩

theorem get_remove_self {V : Type} (ctx : HdTaskContext V) (k : TfToken) :
    GetTaskContextData (RemoveTaskContextData ctx k) k = none := by
  unfold GetTaskContextData RemoveTaskContextData
  rw [List.find?_eq_none.mpr]
  · rfl
  · intro p hp
    have := (List.mem_filter.mp hp).2
    simpa using this

theorem get_clear {V : Type} (ctx : HdTaskContext V) (k : TfToken) :
    GetTaskContextData (ClearTaskContextData ctx) k = none := rfl

theorem keys_map_replace {V : Type} (ctx : HdTaskContext V) (k : TfToken) (v : V) :
    (ctx.map (fun p => if p.1 == k then (k, v) else p)).map Prod.fst =
      ctx.map Prod.fst := by
  rw [List.map_map]
  apply List.map_congr_left
  intro p _
  by_cases hp : (p.1 == k) = true
  · simp only [Function.comp_apply, if_pos hp]
    exact (eq_of_beq hp).symm
  · simp only [Function.comp_apply, if_neg hp]

theorem keysUnique_set {V : Type} {ctx : HdTaskContext V} (k : TfToken) (v : V)
    (h : KeysUnique ctx) : KeysUnique (SetTaskContextData ctx k v) := by
  unfold SetTaskContextData
  by_cases hk : ctx.any (fun p => p.1 == k) = true
  · rw [if_pos hk]
    unfold KeysUnique
    rw [keys_map_replace]
    exact h
  · rw [if_neg hk]
    unfold KeysUnique
    rw [List.map_append, List.nodup_append]
    refine ⟨h, by simp, ?_⟩
    intro a ha hb
    simp only [List.map_cons, List.map_nil, List.mem_singleton] at hb
    subst hb
    simp only [Bool.not_eq_true, List.any_eq_false] at hk
    obtain ⟨p, hp, rfl⟩ := List.mem_map.mp ha
    simpa using hk p hp

theorem keysUnique_remove {V : Type} {ctx : HdTaskContext V} (k : TfToken)
    (h : KeysUnique ctx) : KeysUnique (RemoveTaskContextData ctx k) := by
  unfold KeysUnique RemoveTaskContextData
  exact ((List.filter_sublist ctx).map Prod.fst).nodup h

theorem keysUnique_clear {V : Type} (ctx : HdTaskContext V) :
    KeysUnique (ClearTaskContextData ctx) := by
  simp [KeysUnique, ClearTaskContextData]

end HdModel

namespace HdModel

theorem find?_key_eq_head?_keyEntries {V : Type} (ctx : HdTaskContext V) (k : TfToken) :
    ctx.find? (fun p => p.1 == k) = (keyEntries ctx k).head? := by
  unfold keyEntries
  induction ctx with
  | nil => rfl
  | cons p rest ih =>
    by_cases hp : (p.1 == k) = true
    · rw [List.find?_cons_of_pos (p := fun q : TfToken × V => q.1 == k) _ hp,
        List.filter_cons_of_pos (p := fun q : TfToken × V => q.1 == k) hp]
      rfl
    · rw [List.find?_cons_of_neg (p := fun q : TfToken × V => q.1 == k) _ hp,
        List.filter_cons_of_neg (p := fun q : TfToken × V => q.1 == k) hp]
      exact ih

theorem get_eq_head?_keyEntries {V : Type} (ctx : HdTaskContext V) (k : TfToken) :
    GetTaskContextData ctx k = ((keyEntries ctx k).head?).map (fun q => q.2) := by
  unfold GetTaskContextData
  rw [find?_key_eq_head?_keyEntries]

theorem map_replace_of_no_key {V : Type} {ctx : HdTaskContext V} {k : TfToken} (v : V)
    (h : ∀ q ∈ ctx, (q.1 == k) = false) :
    ctx.map (fun p => if p.1 == k then (k, v) else p) = ctx := by
  have hcong : ∀ q ∈ ctx, (if q.1 == k then (k, v) else q) = id q := by
    intro q hq
    rw [if_neg (by simp [h q hq])]
    rfl
  rw [List.map_congr_left hcong, List.map_id]

theorem keyEntries_eq_nil {V : Type} {ctx : HdTaskContext V} {k : TfToken}
    (h : ∀ q ∈ ctx, (q.1 == k) = false) : keyEntries ctx k = [] := by
  unfold keyEntries
  exact List.filter_eq_nil_iff.mpr (fun q hq => by simp [h q hq])

theorem no_key_of_not_mem_keys {V : Type} {ctx : HdTaskContext V} {k : TfToken}
    (h : k ∉ ctx.map Prod.fst) : ∀ q ∈ ctx, (q.1 == k) = false := by
  intro q hq
  by_contra hbad
  simp only [Bool.not_eq_false, beq_iff_eq] at hbad
  exact h (hbad ▸ List.mem_map_of_mem Prod.fst hq)

theorem keyEntries_set_self {V : Type} {ctx : HdTaskContext V} (k : TfToken) (v : V)
    (h : KeysUnique ctx) : keyEntries (SetTaskContextData ctx k v) k = [(k, v)] := by
  unfold SetTaskContextData
  by_cases hk : ctx.any (fun p => p.1 == k) = true
  · rw [if_pos hk]
    induction ctx with
    | nil => simp at hk
    | cons p rest ih =>
      have hcons := h
      unfold KeysUnique at hcons
      rw [List.map_cons, List.nodup_cons] at hcons
      by_cases hp : (p.1 == k) = true
      · rw [List.map_cons, if_pos hp]
        have hk_eq : p.1 = k := by simpa using hp
        have hnokey : ∀ q ∈ rest, (q.1 == k) = false :=
          no_key_of_not_mem_keys (hk_eq ▸ hcons.1)
        rw [map_replace_of_no_key v hnokey]
        unfold keyEntries
        rw [List.filter_cons_of_pos (by simp)]
        rw [show List.filter (fun p => p.1 == k) rest = keyEntries rest k from rfl,
          keyEntries_eq_nil hnokey]
      · have hrest : rest.any (fun p => p.1 == k) = true := by
          simpa [List.any_cons, hp] using hk
        rw [List.map_cons, if_neg hp]
        unfold keyEntries
        rw [List.filter_cons_of_neg (p := fun q : TfToken × V => q.1 == k) hp]
        exact ih hcons.2 hrest
  · rw [if_neg hk]
    simp only [Bool.not_eq_true, List.any_eq_false] at hk
    unfold keyEntries
    rw [List.filter_append, List.filter_eq_nil_iff.mpr (fun q hq => by simp [hk q hq]),
      List.filter_cons_of_pos (by simp)]
    rfl

end HdModel

namespace HdModel

theorem preparePhase_trace {V : Type} (ts : List (HdTask V)) (ctx : HdTaskContext V) :
    (preparePhase ts ctx).2 = ts.map (fun t => HdEvent.prepare t.tid) := by
  induction ts generalizing ctx with
  | nil => rfl
  | cons t rest ih => simp [preparePhase, ih]

theorem executePhase_trace {V : Type} (ts : List (HdTask V)) (ctx : HdTaskContext V) :
    (executePhase ts ctx).2 = ts.map (fun t => HdEvent.execTask t.tid) := by
  induction ts generalizing ctx with
  | nil => rfl
  | cons t rest ih => simp [executePhase, ih]

theorem preparePhase_keyEntries {V : Type} (k : TfToken) (ts : List (HdTask V))
    (ctx : HdTaskContext V)
    (h : ∀ t ∈ ts, ∀ c, keyEntries (t.prepare c) k = keyEntries c k) :
    keyEntries (preparePhase ts ctx).1 k = keyEntries ctx k := by
  induction ts generalizing ctx with
  | nil => rfl
  | cons t rest ih =>
    show keyEntries (preparePhase rest (t.prepare ctx)).1 k = _
    rw [ih (t.prepare ctx) (fun u hu => h u (List.mem_cons_of_mem t hu)),
      h t (List.mem_cons_self t rest) ctx]

theorem executePhase_keyEntries {V : Type} (k : TfToken) (ts : List (HdTask V))
    (ctx : HdTaskContext V)
    (h : ∀ t ∈ ts, ∀ c, keyEntries (t.execute c) k = keyEntries c k) :
    keyEntries (executePhase ts ctx).1 k = keyEntries ctx k := by
  induction ts generalizing ctx with
  | nil => rfl
  | cons t rest ih =>
    show keyEntries (executePhase rest (t.execute ctx)).1 k = _
    rw [ih (t.execute ctx) (fun u hu => h u (List.mem_cons_of_mem t hu)),
      h t (List.mem_cons_self t rest) ctx]

theorem Execute_valid_eq {V : Type} (idx : HdRenderIndex V) (ts : List (HdTask V))
    (ctx : HdTaskContext V) :
    Execute (some idx) (some ts) ctx =
      { ctx := (executePhase (postSyncTasks idx ts ctx)
                  (preparePhase (postSyncTasks idx ts ctx) (postSyncCtx idx ts ctx)).1).1
        tasksOut := some (postSyncTasks idx ts ctx)
        trace := HdEvent.seed :: HdEvent.syncAll (ts.map (fun t => t.tid)) ::
          ((postSyncTasks idx ts ctx).map (fun t => HdEvent.prepare t.tid) ++
            HdEvent.commit ::
              (postSyncTasks idx ts ctx).map (fun t => HdEvent.execTask t.tid)) } := by
  simp only [Execute, postSyncTasks, postSyncCtx, seededCtx,
    preparePhase_trace, executePhase_trace]

end HdModel

namespace HdModel

theorem prepareIds_append (a b : List HdEvent) :
    prepareIds (a ++ b) = prepareIds a ++ prepareIds b := by
  induction a with
  | nil => rfl
  | cons e t ih => cases e <;> simp [prepareIds, ih]

theorem execIds_append (a b : List HdEvent) :
    execIds (a ++ b) = execIds a ++ execIds b := by
  induction a with
  | nil => rfl
  | cons e t ih => cases e <;> simp [execIds, ih]

theorem prepareIds_prepareMap {V : Type} (ts : List (HdTask V)) :
    prepareIds (ts.map (fun t => HdEvent.prepare t.tid)) =
      ts.map (fun t => t.tid) := by
  induction ts with
  | nil => rfl
  | cons t rest ih => simp [prepareIds, ih]

theorem prepareIds_execMap {V : Type} (ts : List (HdTask V)) :
    prepareIds (ts.map (fun t => HdEvent.execTask t.tid)) = [] := by
  induction ts with
  | nil => rfl
  | cons t rest ih => simp [prepareIds, ih]

theorem execIds_prepareMap {V : Type} (ts : List (HdTask V)) :
    execIds (ts.map (fun t => HdEvent.prepare t.tid)) = [] := by
  induction ts with
  | nil => rfl
  | cons t rest ih => simp [execIds, ih]

theorem execIds_execMap {V : Type} (ts : List (HdTask V)) :
    execIds (ts.map (fun t => HdEvent.execTask t.tid)) =
      ts.map (fun t => t.tid) := by
  induction ts with
  | nil => rfl
  | cons t rest ih => simp [execIds, ih]

theorem countP_map_eq_zero {A B : Type} (p : B → Bool) (f : A → B)
    (l : List A) (h : ∀ x, p (f x) = false) : (l.map f).countP p = 0 := by
  rw [List.countP_map]
  exact List.countP_eq_zero.mpr (fun a _ => by simp [Function.comp, h a])

theorem commitCount_shape {V : Type} (ids : List Nat) (a b : List (HdTask V)) :
    commitCount (HdEvent.seed :: HdEvent.syncAll ids ::
      (a.map (fun t => HdEvent.prepare t.tid) ++
        HdEvent.commit :: b.map (fun t => HdEvent.execTask t.tid))) = 1 := by
  unfold commitCount
  rw [List.countP_cons_of_neg _ _ (by simp), List.countP_cons_of_neg _ _ (by simp),
    List.countP_append, List.countP_cons_of_pos _ _ (by simp),
    countP_map_eq_zero _ _ _ (fun x => rfl), countP_map_eq_zero _ _ _ (fun x => rfl)]

theorem syncCount_shape {V : Type} (ids : List Nat) (a b : List (HdTask V)) :
    syncCount (HdEvent.seed :: HdEvent.syncAll ids ::
      (a.map (fun t => HdEvent.prepare t.tid) ++
        HdEvent.commit :: b.map (fun t => HdEvent.execTask t.tid))) = 1 := by
  unfold syncCount
  rw [List.countP_cons_of_neg _ _ (by simp), List.countP_cons_of_pos _ _ (by simp),
    List.countP_append, List.countP_cons_of_neg _ _ (by simp),
    countP_map_eq_zero _ _ _ (fun x => rfl), countP_map_eq_zero _ _ _ (fun x => rfl)]

theorem seedCount_shape {V : Type} (ids : List Nat) (a b : List (HdTask V)) :
    seedCount (HdEvent.seed :: HdEvent.syncAll ids ::
      (a.map (fun t => HdEvent.prepare t.tid) ++
        HdEvent.commit :: b.map (fun t => HdEvent.execTask t.tid))) = 1 := by
  unfold seedCount
  rw [List.countP_cons_of_pos _ _ (by simp), List.countP_cons_of_neg _ _ (by simp),
    List.countP_append, List.countP_cons_of_neg _ _ (by simp),
    countP_map_eq_zero _ _ _ (fun x => rfl), countP_map_eq_zero _ _ _ (fun x => rfl)]

end HdModel

namespace HdModel

theorem Execute_trace_eq {V : Type} (idx : HdRenderIndex V) (ts : List (HdTask V))
    (ctx : HdTaskContext V) :
    (Execute (some idx) (some ts) ctx).trace =
      HdEvent.seed :: HdEvent.syncAll (ts.map (fun t => t.tid)) ::
        ((postSyncTasks idx ts ctx).map (fun t => HdEvent.prepare t.tid) ++
          HdEvent.commit ::
            (postSyncTasks idx ts ctx).map (fun t => HdEvent.execTask t.tid)) := by
  simp only [Execute, postSyncTasks, seededCtx, preparePhase_trace, executePhase_trace]

theorem Execute_tasksOut_eq {V : Type} (idx : HdRenderIndex V) (ts : List (HdTask V))
    (ctx : HdTaskContext V) :
    (Execute (some idx) (some ts) ctx).tasksOut = some (postSyncTasks idx ts ctx) := by
  simp only [Execute, postSyncTasks, seededCtx]

theorem Execute_ctx_eq {V : Type} (idx : HdRenderIndex V) (ts : List (HdTask V))
    (ctx : HdTaskContext V) :
    (Execute (some idx) (some ts) ctx).ctx =
      (executePhase (postSyncTasks idx ts ctx)
        (preparePhase (postSyncTasks idx ts ctx) (postSyncCtx idx ts ctx)).1).1 := by
  simp only [Execute, postSyncTasks, postSyncCtx, seededCtx]

theorem prepareIds_shape {V : Type} (ids : List Nat) (a b : List (HdTask V)) :
    prepareIds (HdEvent.seed :: HdEvent.syncAll ids ::
      (a.map (fun t => HdEvent.prepare t.tid) ++
        HdEvent.commit :: b.map (fun t => HdEvent.execTask t.tid))) =
      a.map (fun t => t.tid) := by
  simp only [prepareIds, prepareIds_append, prepareIds_prepareMap, prepareIds_execMap,
    List.append_nil]

theorem execIds_shape {V : Type} (ids : List Nat) (a b : List (HdTask V)) :
    execIds (HdEvent.seed :: HdEvent.syncAll ids ::
      (a.map (fun t => HdEvent.prepare t.tid) ++
        HdEvent.commit :: b.map (fun t => HdEvent.execTask t.tid))) =
      b.map (fun t => t.tid) := by
  simp only [execIds, execIds_append, execIds_prepareMap, execIds_execMap,
    List.nil_append]

end HdModel

namespace HdModel

/-- C1: For every call of the primary `Execute(index, taskList)` with non-null
`index` and non-null `taskList` (and `SyncAll` leaving the task list as
given), the engine performs exactly one `SyncAll` call, then one `Prepare`
call per task, then exactly one `CommitResources` call, then one task
`Execute` call per task, in that order; for an empty task list the trace is
still Seed, `SyncAll` with the empty list, and exactly one commit, with zero
`Prepare` and zero task-`Execute` calls. -/
theorem C1_phase_protocol {V : Type} (idx : HdRenderIndex V)
    (ts : List (HdTask V)) (ctx : HdTaskContext V)
    (hsync : ∀ l c, (idx.syncAll l c).1 = l) :
    (Execute (some idx) (some ts) ctx).trace =
      HdEvent.seed :: HdEvent.syncAll (ts.map (fun t => t.tid)) ::
        (ts.map (fun t => HdEvent.prepare t.tid) ++
          HdEvent.commit :: ts.map (fun t => HdEvent.execTask t.tid)) ∧
    seedCount (Execute (some idx) (some ts) ctx).trace = 1 ∧
    syncCount (Execute (some idx) (some ts) ctx).trace = 1 ∧
    commitCount (Execute (some idx) (some ts) ctx).trace = 1 ∧
    (prepareIds (Execute (some idx) (some ts) ctx).trace).length = ts.length ∧
    (execIds (Execute (some idx) (some ts) ctx).trace).length = ts.length := by
  have hpost : postSyncTasks idx ts ctx = ts := hsync ts (seededCtx idx ctx)
  refine ⟨?_, ?_, ?_, ?_, ?_, ?_⟩
  · rw [Execute_trace_eq, hpost]
  · rw [Execute_trace_eq, hpost]
    exact seedCount_shape _ ts ts
  · rw [Execute_trace_eq, hpost]
    exact syncCount_shape _ ts ts
  · rw [Execute_trace_eq, hpost]
    exact commitCount_shape _ ts ts
  · rw [Execute_trace_eq, hpost, prepareIds_shape, List.length_map]
  · rw [Execute_trace_eq, hpost, execIds_shape, List.length_map]

/-- Witness for C1 at a concrete engine: identity `SyncAll`, empty task
list.  The trace is exactly Seed, `SyncAll` with the empty list, one commit,
and no `Prepare`/task-`Execute` events. -/
theorem C1_phase_protocol_witness :
    (Execute (some { drivers := 7
                     syncAll := fun l c => (l, c)
                     getTask := fun _ => none })
        (some ([] : List (HdTask Nat))) []).trace =
      [HdEvent.seed, HdEvent.syncAll [], HdEvent.commit] ∧
    commitCount (Execute (some { drivers := 7
                                 syncAll := fun l c => (l, c)
                                 getTask := fun _ => none })
        (some ([] : List (HdTask Nat))) []).trace = 1 := by
  have h := C1_phase_protocol
    { drivers := 7, syncAll := fun l c => (l, c), getTask := fun _ => none }
    ([] : List (HdTask Nat)) [] (fun l c => rfl)
  exact ⟨h.1, h.2.2.2.1⟩

/-- C2: within one valid primary `Execute` call (with `SyncAll` leaving the
task list as given), the `Prepare` calls hit the tasks in list order at
positions `0..n-1`, and the task `Execute` calls hit them in the same list
order. -/
theorem C2_task_order {V : Type} (idx : HdRenderIndex V)
    (ts : List (HdTask V)) (ctx : HdTaskContext V)
    (hsync : ∀ l c, (idx.syncAll l c).1 = l) :
    prepareIds (Execute (some idx) (some ts) ctx).trace =
      ts.map (fun t => t.tid) ∧
    execIds (Execute (some idx) (some ts) ctx).trace =
      ts.map (fun t => t.tid) ∧
    (∀ i : Nat, (prepareIds (Execute (some idx) (some ts) ctx).trace)[i]? =
      (ts[i]?).map (fun t => t.tid)) ∧
    (∀ i : Nat, (execIds (Execute (some idx) (some ts) ctx).trace)[i]? =
      (ts[i]?).map (fun t => t.tid)) := by
  have hpost : postSyncTasks idx ts ctx = ts := hsync ts (seededCtx idx ctx)
  have hp : prepareIds (Execute (some idx) (some ts) ctx).trace =
      ts.map (fun t => t.tid) := by
    rw [Execute_trace_eq, hpost, prepareIds_shape]
  have he : execIds (Execute (some idx) (some ts) ctx).trace =
      ts.map (fun t => t.tid) := by
    rw [Execute_trace_eq, hpost, execIds_shape]
  refine ⟨hp, he, ?_, ?_⟩
  · intro i
    rw [hp, List.getElem?_map]
  · intro i
    rw [he, List.getElem?_map]

/-- Witness for C2 at a concrete engine with two instrumented tasks: the
`Prepare` ids and `Execute` ids are both `[10, 11]`, matching list order. -/
theorem C2_task_order_witness :
    prepareIds (Execute (some { drivers := 0
                                syncAll := fun l c => (l, c)
                                getTask := fun _ => none })
        (some [{ tid := 10, prepare := fun c => c, execute := fun c => c },
               { tid := 11, prepare := fun c => c, execute := fun c => c }])
        ([] : HdTaskContext Nat)).trace = [10, 11] ∧
    execIds (Execute (some { drivers := 0
                             syncAll := fun l c => (l, c)
                             getTask := fun _ => none })
        (some [{ tid := 10, prepare := fun c => c, execute := fun c => c },
               { tid := 11, prepare := fun c => c, execute := fun c => c }])
        ([] : HdTaskContext Nat)).trace = [10, 11] := by
  have h := C2_task_order
    { drivers := 0, syncAll := fun l c => (l, c), getTask := fun _ => none }
    [{ tid := 10, prepare := fun c => c, execute := fun c => c },
     { tid := 11, prepare := fun c => c, execute := fun c => c }]
    ([] : HdTaskContext Nat) (fun l c => rfl)
  exact ⟨h.1, h.2.1⟩

/-- C3: the primary `Execute` with a null index or a null task list reports
one usage error, performs no phase work (no Seed, no `SyncAll`, no `Prepare`,
no commit, no task `Execute`), leaves the blackboard and the task vector
unchanged, and returns. -/
theorem C3_null_args {V : Type} (ctx : HdTaskContext V)
    (idxOpt : Option (HdRenderIndex V)) (tsOpt : Option (List (HdTask V))) :
    Execute none tsOpt ctx =
      { ctx := ctx, tasksOut := tsOpt,
        trace := [HdEvent.codingError "Passed nullptr to HdEngine::Execute()"] } ∧
    Execute idxOpt none ctx =
      { ctx := ctx, tasksOut := none,
        trace := [HdEvent.codingError "Passed nullptr to HdEngine::Execute()"] } ∧
    seedCount (Execute none tsOpt ctx).trace = 0 ∧
    syncCount (Execute none tsOpt ctx).trace = 0 ∧
    commitCount (Execute none tsOpt ctx).trace = 0 ∧
    prepareIds (Execute none tsOpt ctx).trace = [] ∧
    execIds (Execute none tsOpt ctx).trace = [] ∧
    seedCount (Execute idxOpt none ctx).trace = 0 ∧
    syncCount (Execute idxOpt none ctx).trace = 0 ∧
    commitCount (Execute idxOpt none ctx).trace = 0 ∧
    prepareIds (Execute idxOpt none ctx).trace = [] ∧
    execIds (Execute idxOpt none ctx).trace = [] := by
  cases idxOpt <;> cases tsOpt <;>
    exact ⟨rfl, rfl, rfl, rfl, rfl, rfl, rfl, rfl, rfl, rfl, rfl, rfl⟩

end HdModel

namespace HdModel

/-- C6: blackboard contract — `Set(k, v)` then `Get(k)` returns `v`; `Get`
on a never-set key reports absent; `Remove(k)` then `Get(k)` reports absent;
`Clear()` then `Get` on any key (so in particular any previously-set key)
reports absent. -/
theorem C6_blackboard_contract {V : Type} (ctx : HdTaskContext V)
    (k k2 : TfToken) (v : V) :
    GetTaskContextData (SetTaskContextData ctx k v) k = some v ∧
    (¬ HasKey ctx k → GetTaskContextData ctx k = none) ∧
    GetTaskContextData (RemoveTaskContextData ctx k) k = none ∧
    GetTaskContextData (ClearTaskContextData ctx) k2 = none :=
  ⟨get_set_self ctx k v, fun h => get_of_not_hasKey h, get_remove_self ctx k,
    get_clear ctx k2⟩

/-- Witness for C6 on a concrete blackboard `[("a", 1)]` with key `"b"`. -/
theorem C6_blackboard_contract_witness :
    GetTaskContextData (SetTaskContextData [("a", 1)] "b" 2) "b" = some 2 ∧
    GetTaskContextData [("a", (1 : Nat))] "b" = none ∧
    GetTaskContextData (RemoveTaskContextData [("a", (1 : Nat))] "b") "b" = none ∧
    GetTaskContextData (ClearTaskContextData [("a", (1 : Nat))]) "a" = none := by
  have h := C6_blackboard_contract [("a", (1 : Nat))] "b" "a" 2
  exact ⟨h.1, h.2.1 (by decide), h.2.2.1, h.2.2.2⟩

/-- C7: the blackboard never holds two entries with one key — `Set` is an
upsert that overwrites in place, and key-uniqueness is preserved by `Set`,
`Remove`, `Clear` and the engine's Seed step (`Get` does not mutate). -/
theorem C7_keys_unique {V : Type} (ctx : HdTaskContext V) (k : TfToken)
    (v : V) (idx : HdRenderIndex V) (h : KeysUnique ctx) :
    KeysUnique (SetTaskContextData ctx k v) ∧
    KeysUnique (RemoveTaskContextData ctx k) ∧
    KeysUnique (ClearTaskContextData ctx) ∧
    KeysUnique (seededCtx idx ctx) ∧
    GetTaskContextData (SetTaskContextData ctx k v) k = some v :=
  ⟨keysUnique_set k v h, keysUnique_remove k h, keysUnique_clear ctx,
    keysUnique_set driversToken idx.drivers h, get_set_self ctx k v⟩

/-- Witness for C7 on the concrete blackboard `[("a", 1), ("b", 2)]`,
overwriting key `"a"` and seeding drivers from a concrete index. -/
theorem C7_keys_unique_witness :
    KeysUnique (SetTaskContextData [("a", 1), ("b", 2)] "a" 9) ∧
    KeysUnique (RemoveTaskContextData [("a", (1 : Nat)), ("b", 2)] "a") ∧
    KeysUnique (ClearTaskContextData [("a", (1 : Nat)), ("b", 2)]) ∧
    KeysUnique (seededCtx { drivers := (5 : Nat)
                            syncAll := fun l c => (l, c)
                            getTask := fun _ => none } [("a", 1), ("b", 2)]) ∧
    GetTaskContextData (SetTaskContextData [("a", 1), ("b", 2)] "a" 9) "a" =
      some 9 :=
  C7_keys_unique [("a", (1 : Nat)), ("b", 2)] "a" 9
    { drivers := 5, syncAll := fun l c => (l, c), getTask := fun _ => none }
    (by decide)

end HdModel

namespace HdModel

/-- C5: at the start of every valid primary `Execute` call (after the null
check, before `SyncAll`) the blackboard's drivers entry is overwritten with
the index's current driver set, fully replacing any stale value; and when the
collaborators (`SyncAll`, each task's `Prepare`/`Execute`) leave the drivers
key alone, the drivers entry after the call is exactly that driver set, with
no duplication or accumulation. -/
theorem C5_driver_overwrite {V : Type} (idx : HdRenderIndex V)
    (ts : List (HdTask V)) (ctx : HdTaskContext V) (h : KeysUnique ctx)
    (hsyncK : ∀ l c,
      keyEntries ((idx.syncAll l c).2) driversToken = keyEntries c driversToken)
    (htask : ∀ t ∈ postSyncTasks idx ts ctx,
      (∀ c, keyEntries (t.prepare c) driversToken = keyEntries c driversToken) ∧
      (∀ c, keyEntries (t.execute c) driversToken = keyEntries c driversToken)) :
    GetTaskContextData (seededCtx idx ctx) driversToken = some idx.drivers ∧
    keyEntries (seededCtx idx ctx) driversToken =
      [(driversToken, idx.drivers)] ∧
    keyEntries (Execute (some idx) (some ts) ctx).ctx driversToken =
      [(driversToken, idx.drivers)] ∧
    GetTaskContextData (Execute (some idx) (some ts) ctx).ctx driversToken =
      some idx.drivers := by
  have hseedK : keyEntries (seededCtx idx ctx) driversToken =
      [(driversToken, idx.drivers)] :=
    keyEntries_set_self driversToken idx.drivers h
  have hfinalK : keyEntries (Execute (some idx) (some ts) ctx).ctx
      driversToken = [(driversToken, idx.drivers)] := by
    rw [Execute_ctx_eq,
      executePhase_keyEntries driversToken _ _ (fun t ht => (htask t ht).2),
      preparePhase_keyEntries driversToken _ _ (fun t ht => (htask t ht).1)]
    have hs : keyEntries (postSyncCtx idx ts ctx) driversToken =
        keyEntries (seededCtx idx ctx) driversToken :=
      hsyncK ts (seededCtx idx ctx)
    rw [hs, hseedK]
  refine ⟨get_set_self ctx driversToken idx.drivers, hseedK, hfinalK, ?_⟩
  rw [get_eq_head?_keyEntries, hfinalK]
  rfl

/-- Witness for C5: a blackboard holding a stale drivers value `9` is
overwritten with the index's driver set `7`, exactly once. -/
theorem C5_driver_overwrite_witness :
    GetTaskContextData
      (seededCtx { drivers := (7 : Nat)
                   syncAll := fun l c => (l, c)
                   getTask := fun _ => none }
        [("stale", 0), (driversToken, 9)]) driversToken = some 7 ∧
    keyEntries
      (Execute (some { drivers := (7 : Nat)
                       syncAll := fun l c => (l, c)
                       getTask := fun _ => none })
        (some []) [("stale", 0), (driversToken, 9)]).ctx driversToken =
      [(driversToken, 7)] ∧
    GetTaskContextData
      (Execute (some { drivers := (7 : Nat)
                       syncAll := fun l c => (l, c)
                       getTask := fun _ => none })
        (some []) [("stale", 0), (driversToken, 9)]).ctx driversToken =
      some 7 := by
  have h := C5_driver_overwrite
    { drivers := (7 : Nat), syncAll := fun l c => (l, c),
      getTask := fun _ => none }
    [] [("stale", 0), (driversToken, 9)]
    (by decide)
    (fun l c => rfl)
    (by intro t ht; exact absurd ht (List.not_mem_nil t))
  exact ⟨h.1, h.2.2.1, h.2.2.2⟩

/-- C8: during one valid primary `Execute` call the engine itself never
mutates the task list — the caller's vector afterwards is exactly what
`SyncAll` left in it — and each of the Prepare and Execute phases traverses
that list exactly once, in order. -/
theorem C8_tasklist_immutable {V : Type} (idx : HdRenderIndex V)
    (ts : List (HdTask V)) (ctx : HdTaskContext V) :
    (Execute (some idx) (some ts) ctx).tasksOut =
      some (postSyncTasks idx ts ctx) ∧
    prepareIds (Execute (some idx) (some ts) ctx).trace =
      (postSyncTasks idx ts ctx).map (fun t => t.tid) ∧
    execIds (Execute (some idx) (some ts) ctx).trace =
      (postSyncTasks idx ts ctx).map (fun t => t.tid) := by
  refine ⟨Execute_tasksOut_eq idx ts ctx, ?_, ?_⟩
  · rw [Execute_trace_eq, prepareIds_shape]
  · rw [Execute_trace_eq, execIds_shape]

/-- C9: the number of tasks driving the Prepare loop and the Execute loop is
the single post-`SyncAll` length (`numTasks` is captured once, right after
`SyncAll`, and not re-read between the phases), even when `SyncAll` changes
the task list's length. -/
theorem C9_numTasks_once {V : Type} (idx : HdRenderIndex V)
    (ts : List (HdTask V)) (ctx : HdTaskContext V) :
    (prepareIds (Execute (some idx) (some ts) ctx).trace).length =
      (postSyncTasks idx ts ctx).length ∧
    (execIds (Execute (some idx) (some ts) ctx).trace).length =
      (postSyncTasks idx ts ctx).length := by
  constructor
  · rw [Execute_trace_eq, prepareIds_shape, List.length_map]
  · rw [Execute_trace_eq, execIds_shape, List.length_map]

end HdModel

namespace HdModel

theorem resolveTasks_some {V : Type} (idx : HdRenderIndex V)
    (paths : List SdfPath) :
    resolveTasks (some idx) paths =
      some (specBuiltTasks idx paths, specPathErrors idx paths) := by
  induction paths with
  | nil => rfl
  | cons p ps ih =>
    by_cases hp : p = ""
    · simp [resolveTasks, hp, ih, specBuiltTasks, specPathErrors,
        List.filterMap_cons]
    · cases hgt : idx.getTask p with
      | none =>
        simp [resolveTasks, hp, hgt, ih, specBuiltTasks, specPathErrors,
          List.filterMap_cons]
      | some t =>
        simp [resolveTasks, hp, hgt, ih, specBuiltTasks, specPathErrors,
          List.filterMap_cons]

theorem resolveTasks_null_of_nonempty {V : Type} (paths : List SdfPath)
    (h : ∃ p ∈ paths, p ≠ "") :
    resolveTasks (V := V) none paths = none := by
  induction paths with
  | nil =>
    obtain ⟨p, hp, _⟩ := h
    exact absurd hp (List.not_mem_nil p)
  | cons p ps ih =>
    by_cases hp : p = ""
    · obtain ⟨q, hq, hqne⟩ := h
      rcases List.mem_cons.mp hq with rfl | hq2
      · exact absurd hp hqne
      · simp [resolveTasks, hp, ih ⟨q, hq2, hqne⟩]
    · simp [resolveTasks, hp]

theorem resolveTasks_null_all_empty {V : Type} (paths : List SdfPath)
    (h : ∀ p ∈ paths, p = "") :
    resolveTasks (V := V) none paths =
      some ([], paths.map (fun _ =>
        HdEvent.codingError "Empty task path given to HdEngine::Execute()")) := by
  induction paths with
  | nil => rfl
  | cons p ps ih =>
    have hp := h p (List.mem_cons_self p ps)
    simp [resolveTasks, hp, ih (fun q hq => h q (List.mem_cons_of_mem p hq))]

end HdModel

namespace HdModel

/-- C4: the path-based `Execute` processes each path in order — an empty
path yields a reported usage error and is skipped, a path with no task in
the render index yields a reported usage error and is skipped, each resolved
task is appended preserving the relative order of the resolved entries — and
the built list is passed to the primary `Execute`; a path list whose entries
are all invalid therefore runs the primary `Execute` with an empty list. -/
theorem C4_path_resolution {V : Type} (idx : HdRenderIndex V)
    (paths : List SdfPath) (ctx : HdTaskContext V) :
    resolveTasks (some idx) paths =
      some (specBuiltTasks idx paths, specPathErrors idx paths) ∧
    ExecuteTaskPaths (some idx) paths ctx =
      some { Execute (some idx) (some (specBuiltTasks idx paths)) ctx with
             trace := specPathErrors idx paths ++
               (Execute (some idx) (some (specBuiltTasks idx paths)) ctx).trace } ∧
    ((∀ p ∈ paths, p = "" ∨ (idx.getTask p).isNone = true) →
      specBuiltTasks idx paths = []) := by
  refine ⟨resolveTasks_some idx paths, ?_, ?_⟩
  · unfold ExecuteTaskPaths
    rw [resolveTasks_some]
    rfl
  · intro hall
    unfold specBuiltTasks
    rw [List.filterMap_eq_nil_iff]
    intro p hp
    rcases hall p hp with h1 | h2
    · rw [if_pos h1]
    · by_cases h1 : p = ""
      · rw [if_pos h1]
      · rw [if_neg h1]
        exact Option.isNone_iff_eq_none.mp h2

/-- Witness for C4 on the spec's example `["", "/A", "/missing", "/B"]`: the
built tasks are `[taskA, taskB]` (ids `[1, 2]`) in that order, two usage
errors are reported, and an all-invalid list builds the empty task list. -/
theorem C4_path_resolution_witness :
    (resolveTasks (some sampleIndex) ["", "/A", "/missing", "/B"]).map
        (fun r => (r.1.map (fun t => t.tid), r.2)) =
      some ([1, 2],
        [HdEvent.codingError "Empty task path given to HdEngine::Execute()",
         HdEvent.codingError
           "No task at /missing in render index in HdEngine::Execute()"]) ∧
    specBuiltTasks sampleIndex ["", "/missing"] = [] := by
  have h := C4_path_resolution sampleIndex ["", "/A", "/missing", "/B"]
    ([] : HdTaskContext Nat)
  have h2 := C4_path_resolution sampleIndex ["", "/missing"]
    ([] : HdTaskContext Nat)
  refine ⟨?_, h2.2.2 (by decide)⟩
  rw [h.1]
  rfl

/-- C10: the path-based `Execute` checks the index for null only inside the
primary `Execute`, after resolution: with a null index and at least one
non-empty path, `GetTask` dereferences the null index (a fault); a null
index reaches the primary null check harmlessly only when every path is
empty (in particular when the path list is empty). -/
theorem C10_path_null_index {V : Type} (paths : List SdfPath)
    (ctx : HdTaskContext V) :
    ((∃ p ∈ paths, p ≠ "") → ExecuteTaskPaths none paths ctx = none) ∧
    ((∀ p ∈ paths, p = "") → ExecuteTaskPaths none paths ctx =
      some { ctx := ctx, tasksOut := some [],
             trace := paths.map (fun _ => HdEvent.codingError
                 "Empty task path given to HdEngine::Execute()") ++
               [HdEvent.codingError "Passed nullptr to HdEngine::Execute()"] }) := by
  constructor
  · intro h
    unfold ExecuteTaskPaths
    rw [resolveTasks_null_of_nonempty paths h]
    rfl
  · intro h
    unfold ExecuteTaskPaths
    rw [resolveTasks_null_all_empty paths h]
    rfl

/-- Witness for C10: a null index with the non-empty path `"/A"` faults,
while a null index with only the empty path reaches the primary null check
and reports two usage errors. -/
theorem C10_path_null_index_witness :
    ExecuteTaskPaths none ["/A"] ([] : HdTaskContext Nat) = none ∧
    ExecuteTaskPaths none [""] ([] : HdTaskContext Nat) =
      some { ctx := [], tasksOut := some [],
             trace := [HdEvent.codingError
                 "Empty task path given to HdEngine::Execute()",
               HdEvent.codingError "Passed nullptr to HdEngine::Execute()"] } := by
  constructor
  · exact (C10_path_null_index ["/A"] ([] : HdTaskContext Nat)).1
      ⟨"/A", by simp, by decide⟩
  · have h := (C10_path_null_index [""] ([] : HdTaskContext Nat)).2
      (by intro p hp; simpa using hp)
    simpa using h

end HdModel
